import Mathlib

/-!
Shallow embedding of the content-based movie recommendation engine of the
Movies-Recommendation-System repository: tokenizer, vocabulary builder,
TF-IDF matrix builder, cosine-similarity ranker, title resolver, keyword
search and the corpus / matrix cache, together with proofs about them.

The engine exists in two variants in the repository: the Grok-backed one
(`lib/recommendations.ts` calling the Grok API) and the CSV-backed one
(reading `dataset/movies_15000.csv`).  The tokenizer, vocabulary builder,
TF-IDF computation and cosine similarity are textually identical in both;
they are embedded once.  Where the variants differ (title resolution,
matrix caching) both are embedded, with `Csv` in the name of the CSV one.

JavaScript strings are modelled as `List Char`; JavaScript numbers are
modelled as real numbers, with `Option ℝ` (`none` = NaN/undefined) where
NaN propagation matters.
-/

/-- JS strings are modelled as lists of characters. -/
abbrev Str := List Char

/-- JS `text.toLowerCase()` : lowercase every character. -/
def lowerStr (s : Str) : Str := s.map Char.toLower

/-- A character of the JS regex class `\w` (`[A-Za-z0-9_]`): a letter, a digit
    or an underscore. -/
def isWordChar (c : Char) : Bool := c.isAlphanum || c = '_'

/-- JS `text.replace(/[^\w\s]/g, ' ')` : every character that is neither a word
    character nor whitespace is replaced by a space. -/
def replaceNonWord (s : Str) : Str :=
  s.map (fun c => if isWordChar c || c.isWhitespace then c else ' ')

/-- Collect the maximal runs of consecutive characters satisfying `p`,
    discarding all other characters; `acc` holds the current run reversed. -/
def runsByAux (p : Char → Bool) : Str → Str → List Str
  | [], acc => if acc = [] then [] else [acc.reverse]
  | c :: cs, acc =>
      if p c then runsByAux p cs (c :: acc)
      else if acc = [] then runsByAux p cs []
      else acc.reverse :: runsByAux p cs []

/-- The maximal runs of consecutive characters of `s` satisfying `p`. -/
def runsBy (p : Char → Bool) (s : Str) : List Str := runsByAux p s []

/-- JS `str.split(/\s+/)` : the maximal whitespace-free runs of `s`.  (When the
    string starts or ends with whitespace, JS `split` additionally yields an
    empty fragment there; the `length > 2` filter applied by `tokenize` right
    after the split discards empty fragments either way, so the runs suffice.) -/
def splitWs (s : Str) : List Str := runsBy (fun c => !c.isWhitespace) s

/-- Function `tokenize` from the source: lowercase the text, replace every character
    matching `[^\w\s]` by a space, split on whitespace and keep only the
    tokens of length greater than 2. -/
def tokenize (text : Str) : List Str :=
  (splitWs (replaceNonWord (lowerStr text))).filter (fun word => word.length > 2)

/-- The tokenizer exactly as the C7 claim sentence words it, replacing every
    non-alphanumeric, non-whitespace character by a space (so also the
    underscore, which the source's `\w` class keeps).  This definition follows
    the claim text, not the source; it is compared against `tokenize`. -/
def tokenizeClaimed (text : Str) : List Str :=
  (splitWs ((lowerStr text).map
      (fun c => if c.isAlphanum || c.isWhitespace then c else ' '))).filter
    (fun word => word.length > 2)

theorem wordChar_not_ws (c : Char) (h : isWordChar c = true) :
    c.isWhitespace = false := by
  cases hw : c.isWhitespace with
  | false => rfl
  | true =>
    exfalso
    have hc : ((c = ' ' ∨ c = '\t') ∨ c = '\x0d') ∨ c = '\n' := by
      simpa [Char.isWhitespace] using hw
    rcases hc with ((h1 | h1) | h1) | h1 <;> subst h1 <;> exact absurd h (by decide)

theorem runsByAux_map_congr (p q : Char → Bool) (f : Char → Char)
    (hpq : ∀ c, p (f c) = q c) (hfix : ∀ c, q c = true → f c = c) :
    ∀ (s : Str) (acc : Str), runsByAux p (s.map f) acc = runsByAux q s acc := by
  intro s
  induction s with
  | nil => intro acc; rfl
  | cons c cs ih =>
    intro acc
    simp only [List.map_cons, runsByAux, hpq c]
    cases hq : q c with
    | true => simp only [if_pos rfl, hfix c hq, ih]
    | false => simp only [Bool.false_eq_true, if_false, ih]

theorem splitWs_replaceNonWord (s : Str) :
    splitWs (replaceNonWord s) = runsBy isWordChar s := by
  unfold splitWs replaceNonWord runsBy
  apply runsByAux_map_congr
  · intro c
    by_cases hw : isWordChar c = true
    · simp only [hw, Bool.true_or, if_pos]
      simp [wordChar_not_ws c hw, hw]
    · have hw' : isWordChar c = false := by
        cases h : isWordChar c
        · rfl
        · exact absurd h hw
      cases hws : c.isWhitespace with
      | true => simp [hw', hws]
      | false => simp [hw', hws]
  · intro c hq
    simp [hq, wordChar_not_ws c hq]

/-- C7 (amended part): `tokenize` equals the claimed pipeline once
    "non-alphanumeric" is widened to "outside `[A-Za-z0-9_]`": it returns the
    maximal runs of word characters (letters, digits, underscores) of the
    lowercased text, keeping only runs longer than 2 characters; and it is
    deterministic (re-tokenizing yields an identical list). -/
theorem tokenize_eq_wordRuns (text : Str) :
    tokenize text
      = (runsBy isWordChar (lowerStr text)).filter (fun word => word.length > 2) := by
  unfold tokenize
  rw [splitWs_replaceNonWord]

/-- C7.  The claim describes `tokenize` correctly except for one character
    class: the source keeps the regex word class `\w = [A-Za-z0-9_]`, so an
    underscore is kept inside tokens, while the claim's "replaces every
    non-alphanumeric, non-whitespace character with a space" would replace it.
    On `"abc_def"` the source yields the single token `"abc_def"`, the claimed
    pipeline yields `"abc"`, `"def"`. -/
theorem claim7_counterexample :
    tokenize ("abc_def".toList) = ["abc_def".toList] ∧
    tokenizeClaimed ("abc_def".toList) = ["abc".toList, "def".toList] ∧
    tokenize ("abc_def".toList) ≠ tokenizeClaimed ("abc_def".toList) :=
  ⟨by decide, by decide, by decide⟩

/-- C7 (amended).  For every input string, `tokenize` lowercases the text,
    replaces every character that is neither a word character
    (`[A-Za-z0-9_]`, i.e. alphanumeric or underscore) nor whitespace with a
    space, splits on whitespace runs, and drops every token of length ≤ 2:
    equivalently, it returns exactly the maximal word-character runs of the
    lowercased text that are longer than 2 characters.  It is a pure function
    of its argument, hence deterministic: tokenizing the same string twice
    yields identical output. -/
theorem claim7_tokenize_amended (text : Str) :
    tokenize text
      = (runsBy isWordChar (lowerStr text)).filter (fun word => word.length > 2) :=
  tokenize_eq_wordRuns text

/-- One recommendable item, `interface Movie` of the source.  The CSV engine
    has `movie_id` required, the Grok engine fills a missing one in
    `loadMovies`; after loading it is always present, so it is a plain field
    here. -/
structure Movie where
  movie_id : ℕ
  title : Str
  industry : Str
  genre : Str
  language : Str
  release_year : Int
  overview : Str
deriving DecidableEq

/-- Fallback `Movie` used for in-range `getD` list accesses. -/
def mvDefault : Movie := ⟨0, [], [], [], [], 0, []⟩

/-- The text a movie is vectorized from:
    `` `${movie.title} ${movie.genre} ${movie.overview}` ``. -/
def combinedText (movie : Movie) : Str :=
  movie.title ++ (' ' :: movie.genre) ++ (' ' :: movie.overview)

/-- JS `Set.add` : append the element unless already present (JS `Set` keeps
    first-insertion order). -/
def insertIfAbsent (l : List Str) (s : Str) : List Str :=
  if s ∈ l then l else l ++ [s]

/-- All tokens of the corpus, inserted into a `Set` in corpus order. -/
def vocabSet (movies : List Movie) : List Str :=
  (movies.foldl (fun acc movie => acc ++ tokenize (combinedText movie)) []).foldl
    insertIfAbsent []

/-- Code-unit comparison of two strings, as JS default `Array.sort` compares
    its elements after string conversion. -/
def strLt : Str → Str → Bool
  | [], [] => false
  | [], _ :: _ => true
  | _ :: _, [] => false
  | a :: as, b :: bs =>
      if a.val < b.val then true else if b.val < a.val then false else strLt as bs

def strLe (a b : Str) : Bool := !strLt b a

/-- Function `buildVocabulary` : the sorted list of all distinct tokens occurring in
    title + genre + overview across the corpus. -/
def buildVocabulary (movies : List Movie) : List Str :=
  (vocabSet movies).mergeSort strLe

/-- The `termFreq` object of `calculateTfIdf`, built exactly as in the source
    by walking the token list and incrementing per-token counters. -/
def termFreqMap (tokens : List Str) : Str → ℕ :=
  tokens.foldl (fun m token => fun w => if w = token then m w + 1 else m w)
    (fun _ => 0)

/-- Function `calculateTfIdf` : the TF-IDF vector of one document over `vocab`, with
    document frequencies taken over `allDocuments`.  A document with no valid
    tokens yields the zero vector (identical in both engine variants). -/
noncomputable def calculateTfIdf (document : Str) (vocab : List Str)
    (allDocuments : List Str) : List ℝ :=
  let tokens := tokenize document
  if tokens.length = 0 then vocab.map (fun _ => (0 : ℝ))
  else
    vocab.map (fun word =>
      let tf : ℝ := (termFreqMap tokens word : ℝ) / (tokens.length : ℝ)
      let docCount :=
        (allDocuments.filter (fun doc => (tokenize doc).contains word)).length
      let idf : ℝ := Real.log ((allDocuments.length : ℝ) / ((docCount : ℝ) + 1))
      tf * idf)

/-- The matrix construction of `buildTfIdfMatrix` without its cache wrapper:
    one TF-IDF row per movie over the shared vocabulary. -/
noncomputable def buildTfIdfMatrixPure (movies : List Movie) : List (List ℝ) :=
  let combinedTexts := movies.map combinedText
  combinedTexts.map (fun doc =>
    calculateTfIdf doc (buildVocabulary movies) combinedTexts)

theorem termFreqMap_eq_count (tokens : List Str) (w : Str) :
    termFreqMap tokens w = tokens.count w := by
  unfold termFreqMap
  suffices h : ∀ m : Str → ℕ,
      (tokens.foldl (fun m token => fun w => if w = token then m w + 1 else m w) m) w
        = m w + tokens.count w by
    simpa using h (fun _ => 0)
  induction tokens with
  | nil => intro m; simp
  | cons t ts ih =>
    intro m
    simp only [List.foldl_cons, ih, List.count_cons]
    by_cases hwt : w = t
    · subst hwt
      simp only [if_pos rfl, beq_self_eq_true, if_pos]
      omega
    · have hne : (t == w) = false := by
        simp only [beq_eq_false_iff_ne, ne_eq]
        exact fun h => hwt h.symm
      simp [hwt, hne]

theorem calculateTfIdf_length (document : Str) (vocab : List Str)
    (allDocuments : List Str) :
    (calculateTfIdf document vocab allDocuments).length = vocab.length := by
  unfold calculateTfIdf
  by_cases h : (tokenize document).length = 0 <;> simp [h]

theorem buildTfIdfMatrixPure_length (movies : List Movie) :
    (buildTfIdfMatrixPure movies).length = movies.length := by
  unfold buildTfIdfMatrixPure
  simp

theorem listGetD_lt {α : Type} (l : List α) (n : ℕ) (a : α) (h : n < l.length) :
    l.getD n a = l.get ⟨n, h⟩ := by
  simp [List.getD_eq_getElem?_getD, List.getElem?_eq_getElem h]

theorem calculateTfIdf_getD (document : Str) (vocab : List Str)
    (allDocuments : List Str) (j : ℕ) (hj : j < vocab.length) :
    (calculateTfIdf document vocab allDocuments).getD j 0 =
      if tokenize document = [] then (0 : ℝ)
      else
        (((tokenize document).count (vocab.getD j []) : ℝ) /
            ((tokenize document).length : ℝ)) *
          Real.log ((allDocuments.length : ℝ) /
            ((allDocuments.countP
                (fun doc => (tokenize doc).contains (vocab.getD j [])) : ℝ) + 1)) := by
  unfold calculateTfIdf
  by_cases h : (tokenize document).length = 0
  · have hEq : tokenize document = [] := List.length_eq_zero.mp h
    rw [if_pos h, if_pos hEq,
      listGetD_lt _ j 0 (by simpa using hj)]
    simp
  · have hEq : ¬ tokenize document = [] := fun hc => h (by simp [hc])
    rw [if_neg h, if_neg hEq,
      listGetD_lt _ j 0 (by simpa using hj)]
    simp only [List.get_eq_getElem, List.getElem_map]
    rw [termFreqMap_eq_count, List.countP_eq_length_filter,
      listGetD_lt vocab j [] hj]
    simp

/-- C1.  For every non-empty corpus and every document in it, the TF-IDF
    matrix builder assigns to the vocabulary term at index `j` the weight
    `tf * idf` with `tf = count(w in doc_tokens) / len(doc_tokens)` and
    `idf = ln(total_docs / (doc_frequency(w) + 1))`, and a document whose
    combined text has zero valid tokens gets the all-zero vector — the
    division by the token count is guarded by the zero-token case, so no
    division by zero (and, in the real-number model, no NaN) occurs. -/
theorem claim1_tfidf_weights (movies : List Movie) (hne : movies ≠ [])
    (d j : ℕ) (hd : d < movies.length) (hj : j < (buildVocabulary movies).length) :
    (((buildTfIdfMatrixPure movies).getD d []).getD j 0 =
      if tokenize (combinedText (movies.getD d mvDefault)) = [] then (0 : ℝ)
      else
        (((tokenize (combinedText (movies.getD d mvDefault))).count
              ((buildVocabulary movies).getD j []) : ℝ) /
            ((tokenize (combinedText (movies.getD d mvDefault))).length : ℝ)) *
          Real.log ((movies.length : ℝ) /
            (((movies.map combinedText).countP
                (fun doc => (tokenize doc).contains
                  ((buildVocabulary movies).getD j [])) : ℝ) + 1))) ∧
    (tokenize (combinedText (movies.getD d mvDefault)) = [] →
      (buildTfIdfMatrixPure movies).getD d [] =
        List.replicate (buildVocabulary movies).length (0 : ℝ)) := by
  have hd2 : d < (movies.map combinedText).length := by simpa using hd
  have hrow : (buildTfIdfMatrixPure movies).getD d [] =
      calculateTfIdf (combinedText (movies.getD d mvDefault))
        (buildVocabulary movies) (movies.map combinedText) := by
    unfold buildTfIdfMatrixPure
    rw [listGetD_lt _ d [] (by simpa using hd), listGetD_lt movies d mvDefault hd]
    simp
  constructor
  · rw [hrow, calculateTfIdf_getD _ _ _ j hj]
    simp
  · intro htok
    rw [hrow]
    unfold calculateTfIdf
    rw [if_pos (by rw [htok]; rfl)]
    simp [List.map_const']

/-- Concrete one-movie corpus used to witness C1. -/
def mvAaa : Movie := ⟨1, "aaa".toList, [], [], [], 0, []⟩

/-- Witness for C1 at the corpus `[mvAaa]`, document 0, vocabulary index 0. -/
theorem claim1_tfidf_weights_witness :
    ((buildTfIdfMatrixPure [mvAaa]).getD 0 []).getD 0 0 =
      if tokenize (combinedText ([mvAaa].getD 0 mvDefault)) = [] then (0 : ℝ)
      else
        (((tokenize (combinedText ([mvAaa].getD 0 mvDefault))).count
              ((buildVocabulary [mvAaa]).getD 0 []) : ℝ) /
            ((tokenize (combinedText ([mvAaa].getD 0 mvDefault))).length : ℝ)) *
          Real.log ((List.length [mvAaa] : ℝ) /
            ((([mvAaa].map combinedText).countP
                (fun doc => (tokenize doc).contains
                  ((buildVocabulary [mvAaa]).getD 0 [])) : ℝ) + 1)) :=
  (claim1_tfidf_weights [mvAaa] (by decide) 0 0 (by decide)
    (by simp only [buildVocabulary, List.length_mergeSort]; decide)).1

/-- JS numbers extended with NaN: `none` stands for NaN and also for
    `undefined`, which behaves like NaN in every arithmetic position used
    below. -/
abbrev JsNum := Option ℝ

/-- JS addition: NaN-propagating. -/
def jsAdd : JsNum → JsNum → JsNum
  | some a, some b => some (a + b)
  | _, _ => none

/-- JS multiplication: NaN-propagating (in particular `0 * NaN = NaN`). -/
def jsMul : JsNum → JsNum → JsNum
  | some a, some b => some (a * b)
  | _, _ => none

/-- JS `Math.sqrt` : NaN on NaN and on negative input. -/
noncomputable def jsSqrt : JsNum → JsNum
  | some a => if a < 0 then none else some (Real.sqrt a)
  | none => none

/-- JS division as used here: NaN-propagating.  (`x / 0` would be `±Infinity`
    or NaN in JS; in `cosineSimilarity` the only division is guarded by
    `denominator === 0`, so that case is unreachable and mapped to `none`.) -/
noncomputable def jsDiv : JsNum → JsNum → JsNum
  | some a, some b => if b = 0 then none else some (a / b)
  | _, _ => none

/-- Array access `vec[i]` : reading past the end of a JS array yields `undefined`. -/
def jsGet (vec : List ℝ) (i : ℕ) : JsNum := vec.get? i

/-- Function `cosineSimilarity` from the source, with JS NaN/undefined propagation made
    explicit: the loop runs over the indices of `vec1`; an out-of-range read
    of `vec2` poisons the accumulators with NaN.  `NaN === 0` is false, so a
    poisoned denominator falls through to the division and the result is NaN. -/
noncomputable def cosineSimilarity (vec1 vec2 : List ℝ) : JsNum :=
  let dotProduct := (List.range vec1.length).foldl
    (fun acc i => jsAdd acc (jsMul (jsGet vec1 i) (jsGet vec2 i))) (some 0)
  let norm1 := (List.range vec1.length).foldl
    (fun acc i => jsAdd acc (jsMul (jsGet vec1 i) (jsGet vec1 i))) (some 0)
  let norm2 := (List.range vec1.length).foldl
    (fun acc i => jsAdd acc (jsMul (jsGet vec2 i) (jsGet vec2 i))) (some 0)
  let denominator := jsMul (jsSqrt norm1) (jsSqrt norm2)
  if denominator = some 0 then some 0 else jsDiv dotProduct denominator

/-- The Grok variant additionally guards with `Array.isArray` and returns 0
    when either vector is absent. -/
noncomputable def cosineSimilarityGrok : Option (List ℝ) → Option (List ℝ) → JsNum
  | some vec1, some vec2 => cosineSimilarity vec1 vec2
  | _, _ => some 0

/-- The value `cosineSimilarity` computes when no access is out of range
    (see `cosineSimilarity_eq_some`): plain real arithmetic. -/
noncomputable def cosineSim (vec1 vec2 : List ℝ) : ℝ :=
  let dotProduct := ((List.range vec1.length).map
    (fun i => vec1.getD i 0 * vec2.getD i 0)).sum
  let norm1 := ((List.range vec1.length).map
    (fun i => vec1.getD i 0 * vec1.getD i 0)).sum
  let norm2 := ((List.range vec1.length).map
    (fun i => vec2.getD i 0 * vec2.getD i 0)).sum
  let denominator := Real.sqrt norm1 * Real.sqrt norm2
  if denominator = 0 then 0 else dotProduct / denominator

theorem foldl_jsAdd_of_some (g : ℕ → JsNum) (f : ℕ → ℝ) (l : List ℕ)
    (h : ∀ i ∈ l, g i = some (f i)) :
    ∀ a : ℝ, l.foldl (fun acc i => jsAdd acc (g i)) (some a)
      = some (a + (l.map f).sum) := by
  induction l with
  | nil => intro a; simp
  | cons x xs ih =>
    intro a
    have hx : g x = some (f x) := h x (List.mem_cons_self x xs)
    have hxs : ∀ i ∈ xs, g i = some (f i) := fun i hi => h i (List.mem_cons_of_mem x hi)
    rw [List.foldl_cons, hx]
    have hstep : jsAdd (some a) (some (f x)) = some (a + f x) := rfl
    rw [hstep, ih hxs, List.map_cons, List.sum_cons, add_assoc]

theorem jsAdd_some (a b : ℝ) : jsAdd (some a) (some b) = some (a + b) := rfl

theorem jsMul_some (a b : ℝ) : jsMul (some a) (some b) = some (a * b) := rfl

theorem jsSqrt_some (a : ℝ) :
    jsSqrt (some a) = if a < 0 then none else some (Real.sqrt a) := rfl

theorem jsDiv_some (a b : ℝ) :
    jsDiv (some a) (some b) = if b = 0 then none else some (a / b) := rfl

theorem jsGet_lt (vec : List ℝ) (i : ℕ) (h : i < vec.length) :
    jsGet vec i = some (vec.getD i 0) := by
  unfold jsGet
  rw [listGetD_lt vec i 0 h]
  simp [List.get?_eq_getElem?, List.getElem?_eq_getElem h]

/-- On index-safe inputs (`vec1` not longer than `vec2`) the JS function
    computes exactly the real-valued `cosineSim`; no NaN appears. -/
theorem cosineSimilarity_eq_some (vec1 vec2 : List ℝ) (h : vec1.length ≤ vec2.length) :
    cosineSimilarity vec1 vec2 = some (cosineSim vec1 vec2) := by
  unfold cosineSimilarity cosineSim
  have hd : ∀ i ∈ List.range vec1.length,
      jsMul (jsGet vec1 i) (jsGet vec2 i) = some (vec1.getD i 0 * vec2.getD i 0) := by
    intro i hi
    have hi1 : i < vec1.length := List.mem_range.mp hi
    rw [jsGet_lt vec1 i hi1, jsGet_lt vec2 i (lt_of_lt_of_le hi1 h)]
    rfl
  have h1 : ∀ i ∈ List.range vec1.length,
      jsMul (jsGet vec1 i) (jsGet vec1 i) = some (vec1.getD i 0 * vec1.getD i 0) := by
    intro i hi
    have hi1 : i < vec1.length := List.mem_range.mp hi
    rw [jsGet_lt vec1 i hi1]
    rfl
  have h2 : ∀ i ∈ List.range vec1.length,
      jsMul (jsGet vec2 i) (jsGet vec2 i) = some (vec2.getD i 0 * vec2.getD i 0) := by
    intro i hi
    have hi1 : i < vec1.length := List.mem_range.mp hi
    rw [jsGet_lt vec2 i (lt_of_lt_of_le hi1 h)]
    rfl
  rw [foldl_jsAdd_of_some _ _ _ hd, foldl_jsAdd_of_some _ _ _ h1,
    foldl_jsAdd_of_some _ _ _ h2]
  simp only [zero_add]
  have hn2 : (0 : ℝ) ≤ ((List.range vec1.length).map
      (fun i => vec2.getD i 0 * vec2.getD i 0)).sum :=
    List.sum_nonneg (by
      intro x hx
      simp only [List.mem_map] at hx
      obtain ⟨i, _, hi⟩ := hx
      rw [← hi]
      exact mul_self_nonneg _)
  have hn1 : (0 : ℝ) ≤ ((List.range vec1.length).map
      (fun i => vec1.getD i 0 * vec1.getD i 0)).sum :=
    List.sum_nonneg (by
      intro x hx
      simp only [List.mem_map] at hx
      obtain ⟨i, _, hi⟩ := hx
      rw [← hi]
      exact mul_self_nonneg _)
  rw [jsSqrt_some, jsSqrt_some, if_neg (not_lt.mpr hn1), if_neg (not_lt.mpr hn2),
    jsMul_some]
  by_cases hden : Real.sqrt (((List.range vec1.length).map
      (fun i => vec1.getD i 0 * vec1.getD i 0)).sum) *
      Real.sqrt (((List.range vec1.length).map
      (fun i => vec2.getD i 0 * vec2.getD i 0)).sum) = 0
  · rw [if_pos (by rw [hden]), if_pos hden]
  · rw [if_neg (fun hc => hden (Option.some_injective ℝ hc)), if_neg hden,
      jsDiv_some, if_neg hden]

theorem listSum_range_eq (f : ℕ → ℝ) (n : ℕ) :
    ((List.range n).map f).sum = ∑ i in Finset.range n, f i := by
  induction n with
  | zero => simp
  | succ n ih => rw [List.range_succ, Finset.sum_range_succ, List.map_append, List.sum_append, ih]; simp

/-- Cauchy-Schwarz: the cosine value always lies in `[-1, 1]`. -/
theorem cosineSim_bounds (vec1 vec2 : List ℝ) :
    -1 ≤ cosineSim vec1 vec2 ∧ cosineSim vec1 vec2 ≤ 1 := by
  unfold cosineSim
  simp only [listSum_range_eq]
  set n := vec1.length with hn
  set D := ∑ i in Finset.range n, vec1.getD i 0 * vec2.getD i 0 with hD
  set N1 := ∑ i in Finset.range n, vec1.getD i 0 * vec1.getD i 0 with hN1
  set N2 := ∑ i in Finset.range n, vec2.getD i 0 * vec2.getD i 0 with hN2
  have hn1 : (0 : ℝ) ≤ N1 := Finset.sum_nonneg (fun i _ => mul_self_nonneg _)
  have hn2 : (0 : ℝ) ≤ N2 := Finset.sum_nonneg (fun i _ => mul_self_nonneg _)
  by_cases hden : Real.sqrt N1 * Real.sqrt N2 = 0
  · rw [if_pos hden]
    norm_num
  · rw [if_neg hden]
    have hpos : 0 < Real.sqrt N1 * Real.sqrt N2 :=
      lt_of_le_of_ne (mul_nonneg (Real.sqrt_nonneg _) (Real.sqrt_nonneg _))
        (Ne.symm hden)
    have hcs : D ^ 2 ≤ N1 * N2 := by
      have h0 := Finset.sum_mul_sq_le_sq_mul_sq (Finset.range n)
        (fun i => vec1.getD i 0) (fun i => vec2.getD i 0)
      simpa [pow_two, hD, hN1, hN2] using h0
    have habs : |D| ≤ Real.sqrt N1 * Real.sqrt N2 := by
      have h1 : |D| = Real.sqrt (D ^ 2) := (Real.sqrt_sq_eq_abs D).symm
      rw [h1, ← Real.sqrt_mul hn1 N2]
      exact Real.sqrt_le_sqrt hcs
    have hDle : D ≤ Real.sqrt N1 * Real.sqrt N2 := le_trans (le_abs_self D) habs
    have hDge : -(Real.sqrt N1 * Real.sqrt N2) ≤ D := by
      have := neg_abs_le D
      linarith [abs_le.mp habs]
    constructor
    · rw [le_div_iff hpos]
      linarith
    · rw [div_le_one hpos]
      exact hDle

/-- When the first vector has zero norm the denominator vanishes and the
    guarded branch returns 0. -/
theorem cosineSim_zero_of_left_norm_zero (vec1 vec2 : List ℝ)
    (h : ((List.range vec1.length).map (fun i => vec1.getD i 0 * vec1.getD i 0)).sum = 0) :
    cosineSim vec1 vec2 = 0 := by
  unfold cosineSim
  rw [if_pos]
  rw [h, Real.sqrt_zero, zero_mul]

/-- When the second vector has zero norm over the traversed indices the
    denominator vanishes and the guarded branch returns 0. -/
theorem cosineSim_zero_of_right_norm_zero (vec1 vec2 : List ℝ)
    (h : ((List.range vec1.length).map (fun i => vec2.getD i 0 * vec2.getD i 0)).sum = 0) :
    cosineSim vec1 vec2 = 0 := by
  unfold cosineSim
  rw [if_pos]
  rw [h, Real.sqrt_zero, mul_zero]

theorem jsAdd_none_right (a : JsNum) : jsAdd a none = none := by
  cases a <;> rfl

theorem jsMul_none_right (a : JsNum) : jsMul a none = none := by
  cases a <;> rfl

theorem jsDiv_none_right (a : JsNum) : jsDiv a none = none := by
  cases a <;> rfl

theorem foldl_jsAdd_none (g : ℕ → JsNum) (l : List ℕ) :
    l.foldl (fun acc i => jsAdd acc (g i)) none = none := by
  induction l with
  | nil => rfl
  | cons x xs ih =>
    rw [List.foldl_cons]
    cases hg : g x
    · rw [jsAdd_none_right]
      exact ih
    · exact ih

theorem foldl_jsAdd_poison (g : ℕ → JsNum) (l : List ℕ) (i : ℕ)
    (hi : i ∈ l) (hg : g i = none) :
    ∀ a : JsNum, l.foldl (fun acc i => jsAdd acc (g i)) a = none := by
  induction l with
  | nil => exact absurd hi (List.not_mem_nil i)
  | cons x xs ih =>
    intro a
    rw [List.foldl_cons]
    rcases List.mem_cons.mp hi with hx | hxs
    · subst hx
      rw [hg, jsAdd_none_right]
      exact foldl_jsAdd_none g xs
    · exact ih hxs _

/-- Against an empty second vector and a non-empty first one, the JS cosine
    yields NaN: `vec2[0]` is `undefined` and poisons the dot product and the
    second norm, `NaN === 0` is false, and `NaN / NaN` is returned. -/
theorem cosineSimilarity_cons_nil (x : ℝ) (xs : List ℝ) :
    cosineSimilarity (x :: xs) [] = none := by
  unfold cosineSimilarity
  have h0 : (0 : ℕ) ∈ List.range (x :: xs).length := by
    simp [List.mem_range]
  have hget : jsGet ([] : List ℝ) 0 = none := rfl
  have hdot : (List.range (x :: xs).length).foldl
      (fun acc i => jsAdd acc (jsMul (jsGet (x :: xs) i) (jsGet ([] : List ℝ) i)))
      (some 0) = none :=
    foldl_jsAdd_poison _ _ 0 h0 (by rw [hget, jsMul_none_right]) _
  have hn2 : (List.range (x :: xs).length).foldl
      (fun acc i => jsAdd acc (jsMul (jsGet ([] : List ℝ) i) (jsGet ([] : List ℝ) i)))
      (some 0) = none :=
    foldl_jsAdd_poison _ _ 0 h0 (by rw [hget, jsMul_none_right]) _
  rw [hdot, hn2]
  have hsq : jsSqrt none = none := rfl
  simp [hsq, jsMul_none_right, jsDiv_none_right]

/-- C3.  The claim asserts that `cosineSimilarity` returns 0 whenever the
    vectors are malformed, e.g. of different lengths.  It does not: the loop
    runs over the indices of the first vector, an out-of-range read of the
    second yields `undefined`, the accumulators become NaN, the `NaN === 0`
    guard is false, and NaN — not 0 — is returned.  Concretely
    `cosineSimilarity([1], [])` is NaN. -/
theorem claim3_counterexample :
    cosineSimilarity [(1 : ℝ)] [] = none ∧ (none : JsNum) ≠ some (0 : ℝ) :=
  ⟨cosineSimilarity_cons_nil 1 [], by simp⟩

/-- C3 (amended).  For vectors of equal length `cosineSimilarity` is total and
    NaN-free: it returns `some r` with `r ∈ [-1, 1]`; it returns 0 whenever
    either vector has zero L2 norm; and the Grok variant returns 0 (not an
    error) when either vector is absent.  For vectors of different lengths the
    result can be NaN (see the counterexample), not 0 as claimed. -/
theorem claim3_cosine_amended (vec1 vec2 : List ℝ) (h : vec1.length = vec2.length) :
    (cosineSimilarity vec1 vec2 = some (cosineSim vec1 vec2) ∧
      -1 ≤ cosineSim vec1 vec2 ∧ cosineSim vec1 vec2 ≤ 1) ∧
    (((List.range vec1.length).map (fun i => vec1.getD i 0 * vec1.getD i 0)).sum = 0 →
      cosineSimilarity vec1 vec2 = some 0) ∧
    (((List.range vec1.length).map (fun i => vec2.getD i 0 * vec2.getD i 0)).sum = 0 →
      cosineSimilarity vec1 vec2 = some 0) ∧
    (∀ w : Option (List ℝ),
      cosineSimilarityGrok none w = some 0 ∧ cosineSimilarityGrok w none = some 0) := by
  have hle : vec1.length ≤ vec2.length := le_of_eq h
  refine ⟨⟨cosineSimilarity_eq_some vec1 vec2 hle, cosineSim_bounds vec1 vec2⟩, ?_, ?_, ?_⟩
  · intro hz
    rw [cosineSimilarity_eq_some vec1 vec2 hle,
      cosineSim_zero_of_left_norm_zero vec1 vec2 hz]
  · intro hz
    rw [cosineSimilarity_eq_some vec1 vec2 hle,
      cosineSim_zero_of_right_norm_zero vec1 vec2 hz]
  · intro w
    constructor
    · rfl
    · cases w <;> rfl

/-- Witness for the amended C3 at the concrete pair `[1, 0]`, `[0, 1]`. -/
theorem claim3_cosine_amended_witness :
    cosineSimilarity [(1 : ℝ), 0] [(0 : ℝ), 1]
        = some (cosineSim [(1 : ℝ), 0] [(0 : ℝ), 1]) ∧
      -1 ≤ cosineSim [(1 : ℝ), 0] [(0 : ℝ), 1] ∧
      cosineSim [(1 : ℝ), 0] [(0 : ℝ), 1] ≤ 1 :=
  (claim3_cosine_amended [(1 : ℝ), 0] [(0 : ℝ), 1] (by decide)).1

/-- C9.  The first half of the claim (`cosine(v, v) = 1` for non-zero `v`)
    holds, but "cosine of the all-zero vector with it equals 0 for every
    vector" does not: against a strictly shorter vector the out-of-range reads
    poison the computation and NaN, not 0, is returned.  Concretely
    `cosineSimilarity([0], [])` is NaN. -/
theorem claim9_counterexample :
    cosineSimilarity [(0 : ℝ)] [] = none ∧ (none : JsNum) ≠ some (0 : ℝ) :=
  ⟨cosineSimilarity_cons_nil 0 [], by simp⟩

/-- C9 (amended).  For every vector `v` with non-zero norm,
    `cosineSimilarity(v, v) = 1`; and the all-zero vector scores 0 against
    every vector that is at least as long as it (for strictly shorter ones the
    result is NaN, see the counterexample). -/
theorem claim9_cosine_self_amended :
    (∀ v : List ℝ,
      ((List.range v.length).map (fun i => v.getD i 0 * v.getD i 0)).sum ≠ 0 →
      cosineSimilarity v v = some 1) ∧
    (∀ (n : ℕ) (w : List ℝ), n ≤ w.length →
      cosineSimilarity (List.replicate n 0) w = some 0) := by
  constructor
  · intro v hv
    rw [cosineSimilarity_eq_some v v (le_refl _)]
    unfold cosineSim
    have hS : (0 : ℝ) ≤ ((List.range v.length).map
        (fun i => v.getD i 0 * v.getD i 0)).sum :=
      List.sum_nonneg (by
        intro x hx
        simp only [List.mem_map] at hx
        obtain ⟨i, _, hi⟩ := hx
        rw [← hi]
        exact mul_self_nonneg _)
    have hmul : Real.sqrt (((List.range v.length).map
          (fun i => v.getD i 0 * v.getD i 0)).sum) *
        Real.sqrt (((List.range v.length).map
          (fun i => v.getD i 0 * v.getD i 0)).sum) =
        ((List.range v.length).map (fun i => v.getD i 0 * v.getD i 0)).sum :=
      Real.mul_self_sqrt hS
    rw [if_neg (by rw [hmul]; exact hv), hmul, div_self hv]
  · intro n w hnw
    have hlen : (List.replicate n (0 : ℝ)).length = n := List.length_replicate n 0
    rw [cosineSimilarity_eq_some _ w (by rw [hlen]; exact hnw)]
    congr 1
    apply cosineSim_zero_of_left_norm_zero
    apply List.sum_eq_zero
    intro x hx
    simp only [List.mem_map] at hx
    obtain ⟨i, _, hi⟩ := hx
    rw [← hi]
    have hz : (List.replicate n (0 : ℝ)).getD i 0 = 0 := by
      rw [List.getD_eq_getElem?_getD, List.getElem?_replicate]
      by_cases hin : i < n
      · rw [if_pos hin]
        rfl
      · rw [if_neg hin]
        rfl
    rw [hz, mul_zero]

/-- Witness for the amended C9 at `v = [1]` and at the zero vector of length
    1 against `[5]`. -/
theorem claim9_cosine_self_amended_witness :
    cosineSimilarity [(1 : ℝ)] [(1 : ℝ)] = some 1 ∧
    cosineSimilarity (List.replicate 1 (0 : ℝ)) [(5 : ℝ)] = some 0 :=
  ⟨claim9_cosine_self_amended.1 [(1 : ℝ)]
    (by
      have hr : List.range ([(1 : ℝ)].length) = [0] := rfl
      rw [hr]
      norm_num),
   claim9_cosine_self_amended.2 1 [(5 : ℝ)] (by simp)⟩

/-- Entries of the `similarities` array: `{ movie, score }`. -/
structure Scored where
  movie : Movie
  score : ℝ

/-- Source `interface RecommendationResult extends Movie` : a movie together with its
    reported `similarity_score`. -/
structure RecommendationResult extends Movie where
  similarity_score : ℝ

/-- The similarity loop of `getRecommendations` (CSV engine): every corpus row
    except the query's own, scored against the query row, in corpus order. -/
noncomputable def similaritiesOf (movies : List Movie) (matrix : List (List ℝ))
    (inputIdx : ℕ) : List Scored :=
  ((List.range movies.length).filter (fun i => i != inputIdx)).map
    (fun i => ⟨movies.getD i mvDefault,
      cosineSim (matrix.getD inputIdx []) (matrix.getD i [])⟩)

/-- The JS sort comparator `(a, b) => b.score - a.score`, as the total
    preorder it induces: `a` may stay before `b` iff `b.score ≤ a.score`.
    JS `Array.prototype.sort` is stable, so the sort is modelled by
    `List.mergeSort` with this comparator. -/
noncomputable def scoredLe (a b : Scored) : Bool := decide (b.score ≤ a.score)

/-- JS `parseFloat(score.toFixed(4))` : the score rounded to 4 decimal digits. -/
noncomputable def round4 (x : ℝ) : ℝ := (round (x * 10000) : ℤ) / 10000

/-- The ranking tail of `getRecommendations`: stable-sort the scored rows by
    descending score, truncate to `numRecommendations`, report rounded scores. -/
noncomputable def rankNeighbors (movies : List Movie) (matrix : List (List ℝ))
    (inputIdx : ℕ) (numRecommendations : ℕ) : List RecommendationResult :=
  (((similaritiesOf movies matrix inputIdx).mergeSort scoredLe).take
      numRecommendations).map
    (fun item => ⟨item.movie, round4 item.score⟩)

/-- Stability of `mergeSort`: the subsequence of entries lying in one
    comparator-equivalence class (all satisfying `p`, `le` holding between any
    two of them) is returned in its original relative order. -/
theorem mergeSort_filter_eq {α : Type} (le : α → α → Bool)
    (htrans : ∀ a b c, le a b → le b c → le a c)
    (htotal : ∀ a b, le a b || le b a)
    (p : α → Bool) (hp : ∀ a b, p a = true → p b = true → le a b = true)
    (l : List α) :
    (l.mergeSort le).filter p = l.filter p := by
  have hsub : List.Sublist (l.filter p) (l.mergeSort le) :=
    List.sublist_mergeSort htrans htotal
      (List.pairwise_of_forall_mem_list (fun a ha b hb =>
        hp a b (List.of_mem_filter ha) (List.of_mem_filter hb)))
      (List.filter_sublist l)
  have hself : (l.filter p).filter p = l.filter p :=
    List.filter_eq_self.mpr (fun a ha => List.of_mem_filter ha)
  have hsub2 : List.Sublist (l.filter p) ((l.mergeSort le).filter p) := by
    rw [← hself]
    exact List.Sublist.filter p hsub
  have hperm : List.Perm ((l.mergeSort le).filter p) (l.filter p) :=
    (List.mergeSort_perm l le).filter p
  exact (hsub2.eq_of_length hperm.length_eq.symm).symm

theorem scoredLe_trans (a b c : Scored) (hab : scoredLe a b) (hbc : scoredLe b c) :
    scoredLe a c := by
  simp only [scoredLe, decide_eq_true_eq] at hab hbc ⊢
  exact le_trans hbc hab

theorem scoredLe_total (a b : Scored) : scoredLe a b || scoredLe b a := by
  simp only [scoredLe, Bool.or_eq_true, decide_eq_true_eq]
  exact le_total b.score a.score

/-- C2.  The ranking stage of `getRecommendations` never includes the query's
    own row, returns at most `numRecommendations` entries, sorts by raw score
    descending with ties kept in original corpus order (stable sort), and
    reports each score rounded to 4 decimal digits. -/
theorem claim2_rank_neighbors (movies : List Movie) (matrix : List (List ℝ))
    (inputIdx numRecommendations : ℕ) :
    (rankNeighbors movies matrix inputIdx numRecommendations).length
        ≤ numRecommendations ∧
    (∀ r ∈ rankNeighbors movies matrix inputIdx numRecommendations,
      ∃ i, i < movies.length ∧ i ≠ inputIdx ∧
        r.toMovie = movies.getD i mvDefault ∧
        r.similarity_score
          = round4 (cosineSim (matrix.getD inputIdx []) (matrix.getD i []))) ∧
    ((similaritiesOf movies matrix inputIdx).mergeSort scoredLe).Pairwise
      (fun a b => b.score ≤ a.score) ∧
    (∀ s : ℝ,
      ((similaritiesOf movies matrix inputIdx).mergeSort scoredLe).filter
          (fun x => decide (x.score = s))
        = (similaritiesOf movies matrix inputIdx).filter
            (fun x => decide (x.score = s))) := by
  refine ⟨?_, ?_, ?_, ?_⟩
  · unfold rankNeighbors
    rw [List.length_map]
    exact List.length_take_le _ _
  · intro r hr
    unfold rankNeighbors at hr
    rw [List.mem_map] at hr
    obtain ⟨item, hitem, hre⟩ := hr
    have hmem : item ∈ (similaritiesOf movies matrix inputIdx).mergeSort scoredLe :=
      List.take_subset _ _ hitem
    rw [List.mem_mergeSort] at hmem
    unfold similaritiesOf at hmem
    rw [List.mem_map] at hmem
    obtain ⟨i, hi, hie⟩ := hmem
    rw [List.mem_filter, List.mem_range] at hi
    refine ⟨i, hi.1, ?_, ?_, ?_⟩
    · have := hi.2
      simp only [ne_eq, bne_iff_ne] at this
      exact this
    · rw [← hre, ← hie]
    · rw [← hre, ← hie]
  · have h := List.sorted_mergeSort scoredLe_trans scoredLe_total
      (similaritiesOf movies matrix inputIdx)
    exact h.imp (fun hab => by simpa [scoredLe, decide_eq_true_eq] using hab)
  · intro s
    exact mergeSort_filter_eq scoredLe scoredLe_trans scoredLe_total
      (fun x => decide (x.score = s))
      (fun a b ha hb => by
        simp only [decide_eq_true_eq] at ha hb ⊢
        simp [scoredLe, ha, hb])
      (similaritiesOf movies matrix inputIdx)

/-- Two concrete movies used to witness C2. -/
def mv2a : Movie := ⟨1, "aaa".toList, [], [], [], 0, []⟩

/-- Second concrete movie used to witness C2. -/
def mv2b : Movie := ⟨2, "bbb".toList, [], [], [], 0, []⟩

/-- The single entry that the C2 witness ranking produces. -/
noncomputable def rankWitnessEntry : RecommendationResult :=
  ⟨mv2b, round4 (cosineSim [(1 : ℝ), 0] [(0 : ℝ), 1])⟩

theorem rankNeighbors_concrete :
    rankNeighbors [mv2a, mv2b] [[(1 : ℝ), 0], [(0 : ℝ), 1]] 0 10
      = [rankWitnessEntry] := by
  unfold rankNeighbors
  rw [show similaritiesOf [mv2a, mv2b] [[(1 : ℝ), 0], [(0 : ℝ), 1]] 0
      = [⟨mv2b, cosineSim [(1 : ℝ), 0] [(0 : ℝ), 1]⟩] from rfl,
    List.mergeSort_singleton]
  rfl

/-- Witness for C2 on a two-movie corpus with the identity-like 2×2 matrix. -/
theorem claim2_rank_neighbors_witness :
    (rankNeighbors [mv2a, mv2b] [[(1 : ℝ), 0], [(0 : ℝ), 1]] 0 10).length ≤ 10 ∧
    (∃ i, i < [mv2a, mv2b].length ∧ i ≠ 0 ∧
      rankWitnessEntry.toMovie = [mv2a, mv2b].getD i mvDefault ∧
      rankWitnessEntry.similarity_score
        = round4 (cosineSim ([[(1 : ℝ), 0], [(0 : ℝ), 1]].getD 0 [])
            ([[(1 : ℝ), 0], [(0 : ℝ), 1]].getD i []))) :=
  ⟨(claim2_rank_neighbors [mv2a, mv2b] [[(1 : ℝ), 0], [(0 : ℝ), 1]] 0 10).1,
   (claim2_rank_neighbors [mv2a, mv2b] [[(1 : ℝ), 0], [(0 : ℝ), 1]] 0 10).2.1
     rankWitnessEntry
     (by rw [rankNeighbors_concrete]; exact List.mem_singleton_self _)⟩

/-- JS `trimLeft` : drop leading whitespace. -/
def trimLeftStr : Str → Str
  | [] => []
  | c :: cs => if c.isWhitespace then trimLeftStr cs else c :: cs

/-- JS `String.trim` : drop whitespace from both ends. -/
def trimStr (s : Str) : Str :=
  ((trimLeftStr ((trimLeftStr s).reverse)).reverse)

/-- JS `hay.startsWith(needle)` on character lists. -/
def startsWithL : Str → Str → Bool
  | _, [] => true
  | [], _ :: _ => false
  | c :: cs, d :: ds => c = d && startsWithL cs ds

/-- JS `hay.includes(needle)` : substring containment of JS strings. -/
def strIncludes : Str → Str → Bool
  | [], needle => needle.isEmpty
  | c :: cs, needle => startsWithL (c :: cs) needle || strIncludes cs needle

/-- Function `findMovieByTitle` of the Grok engine: trim+lowercase both sides, return
    `none` on an empty normalized query, else the first exact match, else the
    first movie whose normalized title contains the query as a substring. -/
def findMovieByTitle (movies : List Movie) (title : Str) : Option Movie :=
  let normalizedTitle := trimStr (lowerStr title)
  if normalizedTitle = [] then none
  else
    match movies.find? (fun movie => trimStr (lowerStr movie.title) = normalizedTitle) with
    | some exact => some exact
    | none =>
      movies.find? (fun movie => strIncludes (trimStr (lowerStr movie.title)) normalizedTitle)

/-- Function `findMovieByTitle` of the CSV engine: trim+lowercase the query, lowercase
    (but do not trim) the stored title, first exact match only — no substring
    fallback. -/
def findMovieByTitleCsv (movies : List Movie) (title : Str) : Option Movie :=
  let normalizedTitle := trimStr (lowerStr title)
  movies.find? (fun movie => lowerStr movie.title = normalizedTitle)

/-- Title resolution exactly as the C4 claim words it (written from the claim
    text, to be compared with the source functions): first item with equal
    normalized title, else first item whose normalized title contains the
    normalized query as a substring, else absent.  Note it has no guard for an
    empty normalized query: the empty string is a substring of every title, so
    an empty/whitespace query resolves to the first item of a non-empty
    corpus. -/
def resolveClaimed (movies : List Movie) (title : Str) : Option Movie :=
  let q := trimStr (lowerStr title)
  match (movies.filter (fun m => trimStr (lowerStr m.title) = q)).head? with
  | some m => some m
  | none => (movies.filter (fun m => strIncludes (trimStr (lowerStr m.title)) q)).head?

/-- Concrete movie whose stored title extends the query, for C4. -/
def mvTitanic : Movie := ⟨1, "Titanic (1997)".toList, [], [], [], 1997, []⟩

/-- C4.  Two divergences from the claim.  (1) The CSV engine's resolver has no
    substring fallback: querying "titanic" against the stored title
    "Titanic (1997)" returns absent although the claimed algorithm returns the
    movie.  (2) The Grok engine's resolver returns absent for a query that
    normalizes to the empty string, while the claimed algorithm (empty string
    is a substring of every title) returns the first item. -/
theorem claim4_counterexample :
    findMovieByTitleCsv [mvTitanic] ("titanic".toList) = none ∧
    resolveClaimed [mvTitanic] ("titanic".toList) = some mvTitanic ∧
    findMovieByTitle [mv2a] ("   ".toList) = none ∧
    resolveClaimed [mv2a] ("   ".toList) = some mv2a :=
  ⟨by decide, by decide, by decide, by decide⟩

theorem find?_eq_head?_filter {α : Type} (p : α → Bool) (l : List α) :
    l.find? p = (l.filter p).head? := by
  induction l with
  | nil => rfl
  | cons x xs ih =>
    cases hx : p x with
    | true =>
      rw [List.find?_cons_of_pos xs hx, List.filter_cons_of_pos hx, List.head?_cons]
    | false =>
      have hx' : ¬ p x = true := by rw [hx]; exact Bool.false_ne_true
      rw [List.find?_cons_of_neg xs hx', List.filter_cons_of_neg hx', ih]

/-- C4 (amended).  The Grok resolver behaves exactly as claimed except that an
    empty/whitespace-only query resolves to absent rather than to the first
    item; the CSV resolver trims and lowercases the query, lowercases (but
    does not trim) the stored titles, and returns only the first exact match —
    it has no substring fallback.  Both are case-insensitive: queries with the
    same lowercasing resolve identically. -/
theorem claim4_resolver_amended :
    (∀ (movies : List Movie) (t : Str),
      findMovieByTitle movies t
        = if trimStr (lowerStr t) = [] then none else resolveClaimed movies t) ∧
    (∀ (movies : List Movie) (t : Str),
      findMovieByTitleCsv movies t
        = (movies.filter (fun m => lowerStr m.title = trimStr (lowerStr t))).head?) ∧
    (∀ (movies : List Movie) (t1 t2 : Str), lowerStr t1 = lowerStr t2 →
      findMovieByTitle movies t1 = findMovieByTitle movies t2 ∧
      findMovieByTitleCsv movies t1 = findMovieByTitleCsv movies t2) := by
  refine ⟨?_, ?_, ?_⟩
  · intro movies t
    unfold findMovieByTitle resolveClaimed
    by_cases hq : trimStr (lowerStr t) = []
    · rw [if_pos hq, if_pos hq]
    · rw [if_neg hq, if_neg hq]
      rw [find?_eq_head?_filter, find?_eq_head?_filter]
  · intro movies t
    unfold findMovieByTitleCsv
    rw [find?_eq_head?_filter]
  · intro movies t1 t2 h12
    constructor
    · unfold findMovieByTitle
      rw [h12]
    · unfold findMovieByTitleCsv
      rw [h12]

/-- Concrete movie used to witness C4's case-insensitivity. -/
def mvInception : Movie := ⟨1, "Inception".toList, [], [], [], 2010, []⟩

/-- Witness for the amended C4: queries differing only in letter case resolve
    identically. -/
theorem claim4_resolver_amended_witness :
    findMovieByTitle [mvInception] ("INCEPTION".toList)
        = findMovieByTitle [mvInception] ("inception".toList) ∧
    findMovieByTitleCsv [mvInception] ("INCEPTION".toList)
        = findMovieByTitleCsv [mvInception] ("inception".toList) :=
  claim4_resolver_amended.2.2 [mvInception] ("INCEPTION".toList)
    ("inception".toList) (by decide)

/-- Entries of the keyword-search `scored` array: `{ movie, score }`. -/
structure KScored where
  movie : Movie
  score : ℕ
deriving DecidableEq

/-- The keyword-search comparator
    `(a, b) => b.score !== a.score ? b.score - a.score : (b.year||0) - (a.year||0)`
    as the total preorder it induces (`a` may stay before `b` iff the
    comparator is ≤ 0). -/
def kwLe (a b : KScored) : Bool :=
  if a.score = b.score then decide (b.movie.release_year ≤ a.movie.release_year)
  else decide (b.score ≤ a.score)

/-- The per-movie score of `searchMoviesByKeyword`: one point for every query
    token occurring as a substring of the lowercased
    title + genre + overview haystack (the `if (!t) continue` guard of the
    source is kept). -/
def kwScore (tokens : List Str) (movie : Movie) : ℕ :=
  let haystack :=
    lowerStr (movie.title ++ (' ' :: movie.genre) ++ (' ' :: movie.overview))
  tokens.foldl (fun score t =>
    if t = [] then score
    else if strIncludes haystack t then score + 1 else score) 0

/-- The normalized industry filter: trim+lowercase each entry, drop the
    falsy (empty) ones — `filter(Boolean)` in the source. -/
def normIndustries (industries : List Str) : List Str :=
  (industries.map (fun x => trimStr (lowerStr x))).filter (fun x => !x.isEmpty)

/-- The scoring loop of `searchMoviesByKeyword`: skip movies rejected by the
    industry filter, keep the positively scored ones in corpus order. -/
def kwScored (movies : List Movie) (tokens : List Str)
    (industrySet : List Str) : List KScored :=
  movies.filterMap (fun movie =>
    if !industrySet.isEmpty && !(industrySet.contains (lowerStr movie.industry)) then
      none
    else if kwScore tokens movie > 0 then some ⟨movie, kwScore tokens movie⟩
    else none)

/-- Function `searchMoviesByKeyword(query, industries, limit)` over the corpus
    `movies`: returns `[]` for a blank query, an empty corpus or no valid
    tokens; otherwise scores, stable-sorts by score descending (ties: newer
    release year first) and truncates to `clamp(limit, 1, 50)`.  A total
    function — it never throws. -/
def searchMoviesByKeyword (movies : List Movie) (query : Str)
    (industries : List Str) (limit : Int) : List Movie :=
  let q := trimStr (lowerStr query)
  if q = [] then []
  else if movies = [] then []
  else
    let tokens := tokenize q
    if tokens = [] then []
    else
      (((kwScored movies tokens (normIndustries industries)).mergeSort kwLe).take
          (max 1 (min limit 50)).toNat).map (fun x => x.movie)

theorem kwLe_trans (a b c : KScored) (hab : kwLe a b = true) (hbc : kwLe b c = true) :
    kwLe a c = true := by
  unfold kwLe at hab hbc ⊢
  by_cases h1 : a.score = b.score
  · by_cases h2 : b.score = c.score
    · rw [if_pos h1] at hab
      rw [if_pos h2] at hbc
      rw [if_pos (h1.trans h2)]
      simp only [decide_eq_true_eq] at hab hbc ⊢
      exact le_trans hbc hab
    · rw [if_neg h2] at hbc
      rw [if_neg (fun hc => h2 (h1.symm.trans hc)), h1]
      exact hbc
  · by_cases h2 : b.score = c.score
    · rw [if_neg h1] at hab
      rw [if_neg (fun hc => h1 (hc.trans h2.symm)), ← h2]
      exact hab
    · rw [if_neg h1] at hab
      rw [if_neg h2] at hbc
      simp only [decide_eq_true_eq] at hab hbc
      have h3 : ¬ a.score = c.score := by omega
      rw [if_neg h3]
      simp only [decide_eq_true_eq]
      omega

theorem kwLe_total (a b : KScored) : kwLe a b || kwLe b a := by
  unfold kwLe
  by_cases h : a.score = b.score
  · rw [if_pos h, if_pos h.symm]
    simp only [Bool.or_eq_true, decide_eq_true_eq]
    exact le_total b.movie.release_year a.movie.release_year
  · rw [if_neg h, if_neg (fun hc => h hc.symm)]
    simp only [Bool.or_eq_true, decide_eq_true_eq]
    omega

/-- C6.  `searchMoviesByKeyword` is total (it never raises by construction),
    returns `[]` on an empty corpus or a blank query, drops items scoring 0,
    applies the (case-insensitive, exact) industry filter before scoring,
    sorts by score descending with ties broken by newer release year first,
    and returns at most `clamp(limit, 1, 50)` items. -/
theorem claim6_keyword_search (movies : List Movie) (query : Str)
    (industries : List Str) (limit : Int) :
    (movies = [] → searchMoviesByKeyword movies query industries limit = []) ∧
    (trimStr (lowerStr query) = [] →
      searchMoviesByKeyword movies query industries limit = []) ∧
    (searchMoviesByKeyword movies query industries limit).length
        ≤ (max 1 (min limit 50)).toNat ∧
    (∀ m ∈ searchMoviesByKeyword movies query industries limit,
      kwScore (tokenize (trimStr (lowerStr query))) m > 0 ∧
      (normIndustries industries ≠ [] →
        (normIndustries industries).contains (lowerStr m.industry) = true)) ∧
    ((kwScored movies (tokenize (trimStr (lowerStr query)))
        (normIndustries industries)).mergeSort kwLe).Pairwise
      (fun a b => b.score < a.score ∨
        (b.score = a.score ∧ b.movie.release_year ≤ a.movie.release_year)) := by
  refine ⟨?_, ?_, ?_, ?_, ?_⟩
  · intro h
    subst h
    unfold searchMoviesByKeyword
    by_cases hq : trimStr (lowerStr query) = []
    · rw [if_pos hq]
    · rw [if_neg hq, if_pos rfl]
  · intro hq
    unfold searchMoviesByKeyword
    rw [if_pos hq]
  · unfold searchMoviesByKeyword
    by_cases hq : trimStr (lowerStr query) = []
    · rw [if_pos hq]
      exact Nat.zero_le _
    · rw [if_neg hq]
      by_cases hm : movies = []
      · rw [if_pos hm]
        exact Nat.zero_le _
      · rw [if_neg hm]
        by_cases ht : tokenize (trimStr (lowerStr query)) = []
        · rw [if_pos ht]
          exact Nat.zero_le _
        · rw [if_neg ht]
          rw [List.length_map]
          exact List.length_take_le _ _
  · intro m hm
    unfold searchMoviesByKeyword at hm
    by_cases hq : trimStr (lowerStr query) = []
    · rw [if_pos hq] at hm
      exact absurd hm (List.not_mem_nil m)
    · rw [if_neg hq] at hm
      by_cases hmv : movies = []
      · rw [if_pos hmv] at hm
        exact absurd hm (List.not_mem_nil m)
      · rw [if_neg hmv] at hm
        by_cases ht : tokenize (trimStr (lowerStr query)) = []
        · rw [if_pos ht] at hm
          exact absurd hm (List.not_mem_nil m)
        · rw [if_neg ht] at hm
          rw [List.mem_map] at hm
          obtain ⟨x, hx, hxm⟩ := hm
          have hx2 : x ∈ (kwScored movies (tokenize (trimStr (lowerStr query)))
              (normIndustries industries)).mergeSort kwLe :=
            List.take_subset _ _ hx
          rw [List.mem_mergeSort] at hx2
          unfold kwScored at hx2
          rw [List.mem_filterMap] at hx2
          obtain ⟨movie, _, hf⟩ := hx2
          by_cases hind : (!(normIndustries industries).isEmpty &&
              !((normIndustries industries).contains (lowerStr movie.industry))) = true
          · rw [if_pos hind] at hf
            exact absurd hf (by simp)
          · rw [if_neg hind] at hf
            by_cases hsc : kwScore (tokenize (trimStr (lowerStr query))) movie > 0
            · rw [if_pos hsc] at hf
              have hxeq : x = ⟨movie, kwScore (tokenize (trimStr (lowerStr query))) movie⟩ :=
                (Option.some_injective _ hf).symm
              have hmeq : m = movie := by rw [← hxm, hxeq]
              subst hmeq
              refine ⟨hsc, ?_⟩
              intro hne
              simp only [Bool.and_eq_true, Bool.not_eq_true', not_and] at hind
              have hie : (normIndustries industries).isEmpty = false := by
                cases he : (normIndustries industries).isEmpty
                · rfl
                · exact absurd (List.isEmpty_iff.mp he) hne
              cases hc : (normIndustries industries).contains (lowerStr m.industry) with
              | true => rfl
              | false => exact absurd hc (hind hie)
            · rw [if_neg hsc] at hf
              exact absurd hf (by simp)
  · have h := List.sorted_mergeSort kwLe_trans kwLe_total
      (kwScored movies (tokenize (trimStr (lowerStr query))) (normIndustries industries))
    refine h.imp ?_
    intro a b hab
    unfold kwLe at hab
    by_cases hs : a.score = b.score
    · rw [if_pos hs] at hab
      simp only [decide_eq_true_eq] at hab
      exact Or.inr ⟨hs.symm, hab⟩
    · rw [if_neg hs] at hab
      simp only [decide_eq_true_eq] at hab
      exact Or.inl (by omega)

/-- Concrete movie used to witness C6 (the spec's "Romance Story" scenario). -/
def mvLove : Movie :=
  ⟨1, "Romance Story".toList, "Hollywood".toList, "Romance".toList,
    "English".toList, 2020, "two people fall in love".toList⟩

theorem searchMoviesByKeyword_concrete :
    searchMoviesByKeyword [mvLove] ("love".toList) [] 10 = [mvLove] := by
  unfold searchMoviesByKeyword
  rw [if_neg (by decide), if_neg (by decide), if_neg (by decide)]
  rw [show kwScored [mvLove] (tokenize (trimStr (lowerStr ("love".toList))))
      (normIndustries []) = [⟨mvLove, 1⟩] from by decide]
  rw [List.mergeSort_singleton]
  rfl

/-- Witness for C6: empty corpus and blank query give `[]`, and the movie
    returned for the query "love" scored positively. -/
theorem claim6_keyword_search_witness :
    searchMoviesByKeyword [] ("love".toList) [] 10 = [] ∧
    searchMoviesByKeyword [mvLove] ("".toList) [] 10 = [] ∧
    (kwScore (tokenize (trimStr (lowerStr ("love".toList)))) mvLove > 0 ∧
      (normIndustries [] ≠ [] →
        (normIndustries []).contains (lowerStr mvLove.industry) = true)) :=
  ⟨(claim6_keyword_search [] ("love".toList) [] 10).1 rfl,
   (claim6_keyword_search [mvLove] ("".toList) [] 10).2.1 (by decide),
   (claim6_keyword_search [mvLove] ("love".toList) [] 10).2.2.2.1 mvLove
     (by rw [searchMoviesByKeyword_concrete]; exact List.mem_singleton_self _)⟩

/-- An item as delivered by the external Grok provider (`GrokMovie`);
    `movie_id` may be missing (or 0, which is falsy in JS). -/
structure GrokMovieIn where
  movie_id : Option ℕ
  title : Str
  industry : Str
  genre : Str
  language : Str
  release_year : Int
  overview : Str
deriving DecidableEq

/-- The normalization `loadMovies` applies to the fetched items: trim every
    text field and default a missing or falsy id via
    `movie.movie_id || index + 1`. -/
def normalizeLoaded (grokMovies : List GrokMovieIn) : List Movie :=
  grokMovies.enum.map (fun p =>
    { movie_id :=
        match p.2.movie_id with
        | some k => if k = 0 then p.1 + 1 else k
        | none => p.1 + 1
      title := trimStr p.2.title
      industry := trimStr p.2.industry
      genre := trimStr p.2.genre
      language := trimStr p.2.language
      release_year := p.2.release_year
      overview := trimStr p.2.overview })

/-- The module-level mutable state of the Grok engine: `moviesCache`,
    `tfidfMatrix` and `vocabulary`.  `cacheGen` models the JS object identity
    of the array held in `moviesCache`: a reassignment creates a new
    generation, an in-place `push` keeps it. -/
structure EngineState where
  moviesCache : Option (List Movie)
  cacheGen : ℕ
  tfidfMatrix : Option (List (List ℝ))
  vocabulary : Option (List Str)

/-- The module state right after load: every cache empty. -/
def initState : EngineState := ⟨none, 0, none, none⟩

/-- One `loadMovies()` call.  `expired` models
    `Date.now() - cacheTimestamp ≥ CACHE_DURATION`, `fetched` is the
    provider's reply (an empty reply yields the empty corpus).  Returns the
    new state and the returned array together with its object identity. -/
def loadStep (st : EngineState) (expired : Bool) (fetched : List GrokMovieIn) :
    EngineState × List Movie × ℕ :=
  match st.moviesCache, expired with
  | some mv, false => (st, mv, st.cacheGen)
  | _, _ =>
    let movies := normalizeLoaded fetched
    ({ st with moviesCache := some movies, cacheGen := st.cacheGen + 1 },
      movies, st.cacheGen + 1)

/-- The error conditions thrown by the engine: empty dataset, unresolved
    title, and the defensive row/index-mismatch failure. -/
inductive RecError where
  | emptyCorpus
  | notFound
  | internalInconsistency
deriving DecidableEq

/-- One `buildTfIdfMatrix(movies)` call against module state `st`; `mgen` is
    the object identity of the `movies` argument, so the source's
    `moviesCache === movies` check becomes `st.cacheGen = mgen`.  The cached
    matrix is reused iff matrix and vocabulary are present, the identity check
    passes and the cached row count equals the corpus length; otherwise a
    fresh matrix and vocabulary are built and stored. -/
noncomputable def buildStep (st : EngineState) (movies : List Movie) (mgen : ℕ) :
    Except RecError (EngineState × List (List ℝ) × List Str) :=
  if movies = [] then Except.error RecError.emptyCorpus
  else
    match st.tfidfMatrix, st.vocabulary with
    | some cachedM, some cachedV =>
      if st.cacheGen = mgen ∧ cachedM.length = movies.length then
        Except.ok (st, cachedM, cachedV)
      else
        Except.ok
          ({ st with tfidfMatrix := some (buildTfIdfMatrixPure movies),
                     vocabulary := some (buildVocabulary movies) },
            buildTfIdfMatrixPure movies, buildVocabulary movies)
    | _, _ =>
      Except.ok
        ({ st with tfidfMatrix := some (buildTfIdfMatrixPure movies),
                   vocabulary := some (buildVocabulary movies) },
          buildTfIdfMatrixPure movies, buildVocabulary movies)

/-- The similarity loop of the Grok engine's `getRecommendations`, including
    its defensive skip of missing matrix rows. -/
noncomputable def similaritiesGrok (movies : List Movie) (matrix : List (List ℝ))
    (inputIdx : ℕ) : List Scored :=
  ((List.range movies.length).filter
      (fun i => i != inputIdx && (matrix.get? inputIdx).isSome
        && (matrix.get? i).isSome)).map
    (fun i => ⟨movies.getD i mvDefault,
      cosineSim (matrix.getD inputIdx []) (matrix.getD i [])⟩)

/-- The movie appended to the corpus when resolution falls through to
    `searchMovieInGrok`: id `movies.length + 1` and trimmed fields. -/
def newMovieOf (g : GrokMovieIn) (len : ℕ) : Movie :=
  ⟨len + 1, trimStr g.title, trimStr g.industry, trimStr g.genre,
    trimStr g.language, g.release_year, trimStr g.overview⟩

/-- One `getRecommendations(movieTitle, numRecommendations)` call of the Grok
    engine.  `expired`/`fetched` feed the inner `loadMovies()`;
    `lookupResult` is the reply of `searchMovieInGrok`, consulted only when
    title resolution fails (on success the corpus is grown in place and the
    matrix/vocabulary caches are set to `none`).  The failed `findIndex`
    branch (source message "not found in the dataset", reachable only through
    an internal inconsistency) is mapped to `internalInconsistency`. -/
noncomputable def getRecommendationsStep (st : EngineState) (expired : Bool)
    (fetched : List GrokMovieIn) (movieTitle : Str)
    (lookupResult : Option GrokMovieIn) (numRecommendations : ℕ) :
    EngineState × Except RecError (List RecommendationResult) :=
  let l := loadStep st expired fetched
  let st1 := l.1
  let movies := l.2.1
  let mgen := l.2.2
  if movies = [] then (st1, Except.error RecError.emptyCorpus)
  else
    let resolved :=
      match findMovieByTitle movies movieTitle with
      | some m => some (st1, movies, m)
      | none =>
        match lookupResult with
        | some g =>
          let newMovie := newMovieOf g movies.length
          some ({ st1 with moviesCache := some (movies ++ [newMovie]),
                           tfidfMatrix := none, vocabulary := none },
            movies ++ [newMovie], newMovie)
        | none => none
    match resolved with
    | none => (st1, Except.error RecError.notFound)
    | some (st2, movies2, inputMovie) =>
      match buildStep st2 movies2 mgen with
      | Except.error e => (st2, Except.error e)
      | Except.ok (st3, matrix, _) =>
        match movies2.findIdx? (fun m => lowerStr m.title == lowerStr inputMovie.title) with
        | none => (st3, Except.error RecError.internalInconsistency)
        | some inputIdx =>
          (st3, Except.ok
            ((((similaritiesGrok movies2 matrix inputIdx).mergeSort scoredLe).take
                numRecommendations).map
              (fun item => ⟨item.movie, round4 item.score⟩)))

/-- Module state of the CSV engine: no TTL and no generation — its corpus is
    read once from the CSV file and never replaced. -/
structure CsvState where
  moviesCache : Option (List Movie)
  tfidfMatrix : Option (List (List ℝ))
  vocabulary : Option (List Str)

/-- Function `buildTfIdfMatrix` of the CSV engine: reuses any cached matrix without
    comparing it against the `movies` argument at all. -/
noncomputable def csvBuildStep (st : CsvState) (movies : List Movie) :
    Except RecError (CsvState × List (List ℝ) × List Str) :=
  if movies = [] then Except.error RecError.emptyCorpus
  else
    match st.tfidfMatrix, st.vocabulary with
    | some cachedM, some cachedV => Except.ok (st, cachedM, cachedV)
    | _, _ =>
      Except.ok
        ({ st with tfidfMatrix := some (buildTfIdfMatrixPure movies),
                   vocabulary := some (buildVocabulary movies) },
          buildTfIdfMatrixPure movies, buildVocabulary movies)

/-- C8.  Building a TF-IDF matrix for an empty corpus throws `EmptyCorpus`,
    and `getRecommendations` fails fast with `EmptyCorpus` — for every query
    title and every external-lookup reply, i.e. before resolution, matrix
    building or ranking — whenever the loaded corpus is empty. -/
theorem claim8_empty_corpus :
    (∀ (st : EngineState) (mgen : ℕ),
      buildStep st [] mgen = Except.error RecError.emptyCorpus) ∧
    (∀ (st : EngineState) (expired : Bool) (fetched : List GrokMovieIn)
        (movieTitle : Str) (lookupResult : Option GrokMovieIn) (n : ℕ),
      (loadStep st expired fetched).2.1 = [] →
      (getRecommendationsStep st expired fetched movieTitle lookupResult n).2
        = Except.error RecError.emptyCorpus) := by
  constructor
  · intro st mgen
    unfold buildStep
    rw [if_pos rfl]
  · intro st expired fetched movieTitle lookupResult n h
    simp only [getRecommendationsStep]
    rw [if_pos h]

/-- Witness for C8 on the empty corpus. -/
theorem claim8_empty_corpus_witness :
    buildStep initState [] 0 = Except.error RecError.emptyCorpus ∧
    (getRecommendationsStep initState true [] ("aaa".toList) none 5).2
      = Except.error RecError.emptyCorpus :=
  ⟨claim8_empty_corpus.1 initState 0,
   claim8_empty_corpus.2 initState true [] ("aaa".toList) none 5 rfl⟩

theorem buildTfIdfMatrixPure_row_lengths (movies : List Movie) :
    (buildTfIdfMatrixPure movies).map List.length
      = List.replicate movies.length (buildVocabulary movies).length := by
  unfold buildTfIdfMatrixPure
  rw [List.map_map]
  have hc : (List.length ∘ fun doc =>
      calculateTfIdf doc (buildVocabulary movies) (movies.map combinedText))
        = fun _ => (buildVocabulary movies).length := by
    funext doc
    exact calculateTfIdf_length doc _ _
  rw [hc, List.map_const', List.length_map]

/-- Provider reply for the first load of the C5 counterexample run. -/
def gMovieA : GrokMovieIn := ⟨none, "aaa".toList, [], [], [], 0, []⟩

/-- Provider reply for the reload of the C5 counterexample run: one movie
    again, but a different one (its text has two distinct tokens). -/
def gMovieB : GrokMovieIn := ⟨none, "bbb ccc".toList, [], [], [], 0, []⟩

/-- Corpus `normalizeLoaded [gMovieA]` : the corpus after the first load. -/
def movA : Movie := ⟨1, "aaa".toList, [], [], [], 0, []⟩

/-- Corpus `normalizeLoaded [gMovieB]` : the corpus after the reload. -/
def movB : Movie := ⟨1, "bbb ccc".toList, [], [], [], 0, []⟩

/-- C5.  The claim says a cached matrix is reused only if it was built from
    the exact same corpus, any divergence invalidating it.  The reuse guard,
    however, compares the `movies` argument only against the *current*
    `moviesCache` (object identity) and the cached row count: after the 1-hour
    TTL expires and `loadMovies` replaces the corpus with a different one of
    equal length, the matrix built from the old corpus passes both checks and
    is reused for the new corpus.  Concrete run: load `[movA]`, build (matrix
    of `[movA]`), reload to `[movB]`, build again — the second build returns
    the `[movA]` matrix although `buildTfIdfMatrixPure [movB]` differs. -/
theorem claim5_counterexample :
    loadStep initState true [gMovieA]
      = (⟨some [movA], 1, none, none⟩, [movA], 1) ∧
    buildStep ⟨some [movA], 1, none, none⟩ [movA] 1
      = Except.ok (⟨some [movA], 1, some (buildTfIdfMatrixPure [movA]),
          some (buildVocabulary [movA])⟩,
        buildTfIdfMatrixPure [movA], buildVocabulary [movA]) ∧
    loadStep ⟨some [movA], 1, some (buildTfIdfMatrixPure [movA]),
        some (buildVocabulary [movA])⟩ true [gMovieB]
      = (⟨some [movB], 2, some (buildTfIdfMatrixPure [movA]),
          some (buildVocabulary [movA])⟩, [movB], 2) ∧
    buildStep ⟨some [movB], 2, some (buildTfIdfMatrixPure [movA]),
        some (buildVocabulary [movA])⟩ [movB] 2
      = Except.ok (⟨some [movB], 2, some (buildTfIdfMatrixPure [movA]),
          some (buildVocabulary [movA])⟩,
        buildTfIdfMatrixPure [movA], buildVocabulary [movA]) ∧
    movB ≠ movA ∧
    buildTfIdfMatrixPure [movB] ≠ buildTfIdfMatrixPure [movA] := by
  refine ⟨rfl, ?_, rfl, ?_, by decide, ?_⟩
  · unfold buildStep
    rw [if_neg (by decide)]
  · unfold buildStep
    rw [if_neg (by decide)]
    dsimp only
    have hlen : (buildTfIdfMatrixPure [movA]).length = 1 := buildTfIdfMatrixPure_length [movA]
    rw [if_pos ⟨rfl, by rw [hlen]; rfl⟩]
  · intro h
    have h2 : (buildTfIdfMatrixPure [movB]).map List.length
        = (buildTfIdfMatrixPure [movA]).map List.length := by rw [h]
    rw [buildTfIdfMatrixPure_row_lengths, buildTfIdfMatrixPure_row_lengths] at h2
    have h3 : (buildVocabulary [movB]).length = (buildVocabulary [movA]).length := by
      simpa using h2
    simp only [buildVocabulary, List.length_mergeSort] at h3
    exact absurd h3 (by decide)

/-- C5 (amended).  What the caching actually guarantees.  (1) With a cached
    matrix and vocabulary present, a build call reuses them iff the `movies`
    argument is the current cached corpus object (generation check) and the
    cached row count equals the corpus length — the provenance of the matrix
    is not checked, so a TTL reload to a different same-length corpus reuses a
    stale matrix (see the counterexample); otherwise it rebuilds and stores a
    fresh matrix and vocabulary.  (2) With no cached matrix a build always
    rebuilds.  (3) The append performed after a failed title lookup sets the
    cached matrix and vocabulary to absent, so the build inside that same
    recommendation call rebuilds from the appended corpus.  (4) The CSV
    engine's builder reuses any cached matrix unconditionally. -/
theorem claim5_cache_amended :
    (∀ (st : EngineState) (movies : List Movie) (mgen : ℕ)
        (cachedM : List (List ℝ)) (cachedV : List Str),
      st.tfidfMatrix = some cachedM → st.vocabulary = some cachedV →
      movies ≠ [] →
      (st.cacheGen = mgen ∧ cachedM.length = movies.length →
        buildStep st movies mgen = Except.ok (st, cachedM, cachedV)) ∧
      (¬ (st.cacheGen = mgen ∧ cachedM.length = movies.length) →
        buildStep st movies mgen = Except.ok
          ({ st with tfidfMatrix := some (buildTfIdfMatrixPure movies),
                     vocabulary := some (buildVocabulary movies) },
            buildTfIdfMatrixPure movies, buildVocabulary movies))) ∧
    (∀ (st : EngineState) (movies : List Movie) (mgen : ℕ),
      st.tfidfMatrix = none → movies ≠ [] →
      buildStep st movies mgen = Except.ok
        ({ st with tfidfMatrix := some (buildTfIdfMatrixPure movies),
                   vocabulary := some (buildVocabulary movies) },
          buildTfIdfMatrixPure movies, buildVocabulary movies)) ∧
    (∀ (st : EngineState) (expired : Bool) (fetched : List GrokMovieIn)
        (movieTitle : Str) (g : GrokMovieIn) (n : ℕ),
      (loadStep st expired fetched).2.1 ≠ [] →
      findMovieByTitle (loadStep st expired fetched).2.1 movieTitle = none →
      (getRecommendationsStep st expired fetched movieTitle (some g) n).1.tfidfMatrix
        = some (buildTfIdfMatrixPure ((loadStep st expired fetched).2.1
            ++ [newMovieOf g (loadStep st expired fetched).2.1.length]))) ∧
    (∀ (st : CsvState) (movies : List Movie)
        (cachedM : List (List ℝ)) (cachedV : List Str),
      st.tfidfMatrix = some cachedM → st.vocabulary = some cachedV →
      movies ≠ [] →
      csvBuildStep st movies = Except.ok (st, cachedM, cachedV)) := by
  refine ⟨?_, ?_, ?_, ?_⟩
  · intro st movies mgen cachedM cachedV hm hv hne
    constructor
    · intro hguard
      unfold buildStep
      rw [if_neg hne, hm, hv]
      dsimp only
      rw [if_pos hguard]
    · intro hguard
      unfold buildStep
      rw [if_neg hne, hm, hv]
      dsimp only
      rw [if_neg hguard]
  · intro st movies mgen hm hne
    unfold buildStep
    rw [if_neg hne, hm]
  · intro st expired fetched movieTitle g n h1 h2
    simp only [getRecommendationsStep]
    rw [if_neg h1, h2]
    dsimp only
    have hne2 : (loadStep st expired fetched).2.1
        ++ [newMovieOf g (loadStep st expired fetched).2.1.length] ≠ [] := by
      simp
    rw [show buildStep
        { (loadStep st expired fetched).1 with
            moviesCache := some ((loadStep st expired fetched).2.1
              ++ [newMovieOf g (loadStep st expired fetched).2.1.length]),
            tfidfMatrix := none, vocabulary := none }
        ((loadStep st expired fetched).2.1
          ++ [newMovieOf g (loadStep st expired fetched).2.1.length])
        (loadStep st expired fetched).2.2
      = Except.ok
          ({ (loadStep st expired fetched).1 with
              moviesCache := some ((loadStep st expired fetched).2.1
                ++ [newMovieOf g (loadStep st expired fetched).2.1.length]),
              tfidfMatrix := some (buildTfIdfMatrixPure
                ((loadStep st expired fetched).2.1
                  ++ [newMovieOf g (loadStep st expired fetched).2.1.length])),
              vocabulary := some (buildVocabulary
                ((loadStep st expired fetched).2.1
                  ++ [newMovieOf g (loadStep st expired fetched).2.1.length])) },
            buildTfIdfMatrixPure ((loadStep st expired fetched).2.1
              ++ [newMovieOf g (loadStep st expired fetched).2.1.length]),
            buildVocabulary ((loadStep st expired fetched).2.1
              ++ [newMovieOf g (loadStep st expired fetched).2.1.length])) from by
      unfold buildStep
      rw [if_neg hne2]]
    dsimp only
    cases hidx : ((loadStep st expired fetched).2.1
        ++ [newMovieOf g (loadStep st expired fetched).2.1.length]).findIdx?
        (fun m => lowerStr m.title
          == lowerStr (newMovieOf g (loadStep st expired fetched).2.1.length).title) with
    | none => rfl
    | some inputIdx => rfl
  · intro st movies cachedM cachedV hm hv hne
    unfold csvBuildStep
    rw [if_neg hne, hm, hv]

/-- Witness for the amended C5: a cached matrix built from `[movA]` is reused
    when the build is called with the same corpus instance and length. -/
theorem claim5_cache_amended_witness :
    buildStep ⟨some [movA], 1, some (buildTfIdfMatrixPure [movA]),
        some (buildVocabulary [movA])⟩ [movA] 1
      = Except.ok (⟨some [movA], 1, some (buildTfIdfMatrixPure [movA]),
          some (buildVocabulary [movA])⟩,
        buildTfIdfMatrixPure [movA], buildVocabulary [movA]) :=
  (claim5_cache_amended.1
    ⟨some [movA], 1, some (buildTfIdfMatrixPure [movA]),
      some (buildVocabulary [movA])⟩ [movA] 1
    (buildTfIdfMatrixPure [movA]) (buildVocabulary [movA]) rfl rfl
    (by decide)).1 ⟨rfl, buildTfIdfMatrixPure_length [movA]⟩

/-- Provider item carrying the explicit id 5 (C10 counterexample). -/
def gDup1 : GrokMovieIn := ⟨some 5, "aaa".toList, [], [], [], 0, []⟩

/-- A second, different provider item carrying the same explicit id 5. -/
def gDup2 : GrokMovieIn := ⟨some 5, "bbb".toList, [], [], [], 0, []⟩

/-- Corpus `normalizeLoaded [gDup1, gDup2]` head: keeps the provided id 5. -/
def mDup1 : Movie := ⟨5, "aaa".toList, [], [], [], 0, []⟩

/-- Corpus `normalizeLoaded [gDup1, gDup2]` second element: also id 5. -/
def mDup2 : Movie := ⟨5, "bbb".toList, [], [], [], 0, []⟩

/-- C10.  The load normalization `movie.movie_id || index + 1` keeps explicit
    provider ids without any uniqueness check, so the initial load — one of
    the claim's cache operations — can already produce a corpus in which two
    distinct items share an id. -/
theorem claim10_counterexample :
    (loadStep initState true [gDup1, gDup2]).1.moviesCache = some [mDup1, mDup2] ∧
    mDup1.movie_id = mDup2.movie_id ∧ mDup1 ≠ mDup2 :=
  ⟨rfl, rfl, by decide⟩

/-- The externally driven operations that touch the corpus cache. -/
inductive EngineOp where
  | load (expired : Bool) (fetched : List GrokMovieIn)
  | recommend (expired : Bool) (fetched : List GrokMovieIn) (title : Str)
      (lookupResult : Option GrokMovieIn) (n : ℕ)

/-- Apply one operation to the module state. -/
noncomputable def applyOp (st : EngineState) : EngineOp → EngineState
  | EngineOp.load expired fetched => (loadStep st expired fetched).1
  | EngineOp.recommend expired fetched title lookupResult n =>
      (getRecommendationsStep st expired fetched title lookupResult n).1

/-- Run a sequence of operations from the initial module state. -/
noncomputable def runOps (ops : List EngineOp) : EngineState :=
  ops.foldl applyOp initState

/-- The provider reply an operation consumes. -/
def opFetched : EngineOp → List GrokMovieIn
  | EngineOp.load _ f => f
  | EngineOp.recommend _ f _ _ _ => f

/-- A provider reply whose normalized ids are pairwise distinct and bounded by
    the number of items — as with absent ids (the engine numbers them 1..n)
    and with the bundled sample data's sequential ids. -/
def GoodFetch (fetched : List GrokMovieIn) : Prop :=
  ((normalizeLoaded fetched).map Movie.movie_id).Nodup ∧
  ∀ k ∈ (normalizeLoaded fetched).map Movie.movie_id, k ≤ fetched.length

/-- A corpus with pairwise-distinct ids, all bounded by its length. -/
def GoodCorpus (mv : List Movie) : Prop :=
  (mv.map Movie.movie_id).Nodup ∧ ∀ k ∈ mv.map Movie.movie_id, k ≤ mv.length

theorem normalizeLoaded_length (fetched : List GrokMovieIn) :
    (normalizeLoaded fetched).length = fetched.length := by
  unfold normalizeLoaded
  rw [List.length_map, List.enum_length]

theorem loadStep_cache_eq (st : EngineState) (expired : Bool)
    (fetched : List GrokMovieIn) :
    (loadStep st expired fetched).1.moviesCache
      = some ((loadStep st expired fetched).2.1) := by
  unfold loadStep
  cases hc : st.moviesCache with
  | none => rfl
  | some mv =>
    cases expired with
    | false => exact hc
    | true => rfl

theorem loadStep_good (st : EngineState) (expired : Bool)
    (fetched : List GrokMovieIn)
    (hst : ∀ mv, st.moviesCache = some mv → GoodCorpus mv)
    (hf : GoodFetch fetched) :
    ∀ mv, (loadStep st expired fetched).1.moviesCache = some mv → GoodCorpus mv := by
  intro mv hmv
  unfold loadStep at hmv
  cases hc : st.moviesCache with
  | none =>
    rw [hc] at hmv
    dsimp only at hmv
    have hmv2 : mv = normalizeLoaded fetched := (Option.some_injective _ hmv).symm
    subst hmv2
    exact ⟨hf.1, fun k hk => le_trans (hf.2 k hk) (le_of_eq (normalizeLoaded_length fetched).symm)⟩
  | some old =>
    cases expired with
    | false =>
      rw [hc] at hmv
      dsimp only at hmv
      exact hst mv hmv
    | true =>
      rw [hc] at hmv
      dsimp only at hmv
      have hmv2 : mv = normalizeLoaded fetched := (Option.some_injective _ hmv).symm
      subst hmv2
      exact ⟨hf.1, fun k hk => le_trans (hf.2 k hk) (le_of_eq (normalizeLoaded_length fetched).symm)⟩

theorem buildStep_moviesCache (st : EngineState) (movies : List Movie) (mgen : ℕ)
    (st2 : EngineState) (m : List (List ℝ)) (v : List Str)
    (h : buildStep st movies mgen = Except.ok (st2, m, v)) :
    st2.moviesCache = st.moviesCache := by
  unfold buildStep at h
  by_cases hne : movies = []
  · rw [if_pos hne] at h
    exact absurd h (by simp)
  · rw [if_neg hne] at h
    cases hm : st.tfidfMatrix with
    | none =>
      rw [hm] at h
      have := (Except.ok.inj h)
      exact (congrArg (fun p => p.1.moviesCache) this).symm
    | some cm =>
      cases hv : st.vocabulary with
      | none =>
        rw [hm, hv] at h
        have := (Except.ok.inj h)
        exact (congrArg (fun p => p.1.moviesCache) this).symm
      | some cv =>
        rw [hm, hv] at h
        dsimp only at h
        by_cases hg : st.cacheGen = mgen ∧ cm.length = movies.length
        · rw [if_pos hg] at h
          have := (Except.ok.inj h)
          exact (congrArg (fun p => p.1.moviesCache) this).symm
        · rw [if_neg hg] at h
          have := (Except.ok.inj h)
          exact (congrArg (fun p => p.1.moviesCache) this).symm

theorem getRecommendationsStep_corpus (st : EngineState) (expired : Bool)
    (fetched : List GrokMovieIn) (title : Str)
    (lookupResult : Option GrokMovieIn) (n : ℕ) :
    (getRecommendationsStep st expired fetched title lookupResult n).1.moviesCache
        = (loadStep st expired fetched).1.moviesCache ∨
    (∃ g, lookupResult = some g ∧
      (getRecommendationsStep st expired fetched title lookupResult n).1.moviesCache
        = some ((loadStep st expired fetched).2.1
            ++ [newMovieOf g (loadStep st expired fetched).2.1.length])) := by
  simp only [getRecommendationsStep]
  by_cases h1 : (loadStep st expired fetched).2.1 = []
  · rw [if_pos h1]
    exact Or.inl rfl
  · rw [if_neg h1]
    cases hres : findMovieByTitle (loadStep st expired fetched).2.1 title with
    | some m =>
      dsimp only
      cases hb : buildStep (loadStep st expired fetched).1
          (loadStep st expired fetched).2.1 (loadStep st expired fetched).2.2 with
      | error e =>
        exact Or.inl rfl
      | ok res =>
        obtain ⟨st3, matrix, voc⟩ := res
        have h3 : st3.moviesCache = (loadStep st expired fetched).1.moviesCache :=
          buildStep_moviesCache _ _ _ _ _ _ hb
        cases hidx : ((loadStep st expired fetched).2.1).findIdx?
            (fun mm => lowerStr mm.title == lowerStr m.title) with
        | none =>
          exact Or.inl h3
        | some inputIdx =>
          exact Or.inl h3
    | none =>
      cases lookupResult with
      | none =>
        dsimp only
        exact Or.inl rfl
      | some g =>
        dsimp only
        cases hb : buildStep
            { (loadStep st expired fetched).1 with
                moviesCache := some ((loadStep st expired fetched).2.1
                  ++ [newMovieOf g (loadStep st expired fetched).2.1.length]),
                tfidfMatrix := none, vocabulary := none }
            ((loadStep st expired fetched).2.1
              ++ [newMovieOf g (loadStep st expired fetched).2.1.length])
            (loadStep st expired fetched).2.2 with
        | error e =>
          exact Or.inr ⟨g, rfl, rfl⟩
        | ok res =>
          obtain ⟨st3, matrix, voc⟩ := res
          have h3 : st3.moviesCache
              = some ((loadStep st expired fetched).2.1
                  ++ [newMovieOf g (loadStep st expired fetched).2.1.length]) :=
            buildStep_moviesCache _ _ _ _ _ _ hb
          cases hidx : (((loadStep st expired fetched).2.1
              ++ [newMovieOf g (loadStep st expired fetched).2.1.length])).findIdx?
              (fun mm => lowerStr mm.title
                == lowerStr (newMovieOf g (loadStep st expired fetched).2.1.length).title) with
          | none =>
            exact Or.inr ⟨g, rfl, h3⟩
          | some inputIdx =>
            exact Or.inr ⟨g, rfl, h3⟩

theorem goodCorpus_append (mv : List Movie) (g : GrokMovieIn)
    (h : GoodCorpus mv) : GoodCorpus (mv ++ [newMovieOf g mv.length]) := by
  obtain ⟨hnd, hbd⟩ := h
  constructor
  · rw [List.map_append]
    apply List.Nodup.append hnd (List.nodup_singleton _)
    intro k hk hk2
    have hk3 : k = mv.length + 1 := by
      simpa [newMovieOf] using hk2
    have := hbd k hk
    omega
  · intro k hk
    rw [List.map_append, List.mem_append] at hk
    rw [List.length_append]
    rcases hk with hk | hk
    · have := hbd k hk
      simp only [List.length_singleton]
      omega
    · have hk3 : k = mv.length + 1 := by
        simpa [newMovieOf] using hk
      simp only [List.length_singleton]
      omega

theorem applyOp_good (st : EngineState) (op : EngineOp)
    (hst : ∀ mv, st.moviesCache = some mv → GoodCorpus mv)
    (hf : GoodFetch (opFetched op)) :
    ∀ mv, (applyOp st op).moviesCache = some mv → GoodCorpus mv := by
  cases op with
  | load expired fetched =>
    exact loadStep_good st expired fetched hst hf
  | recommend expired fetched title lookupResult n =>
    intro mv hmv
    unfold applyOp at hmv
    rcases getRecommendationsStep_corpus st expired fetched title lookupResult n with
      hcase | ⟨g, _, hcase⟩
    · rw [hcase] at hmv
      exact loadStep_good st expired fetched hst hf mv hmv
    · rw [hcase] at hmv
      have hmv2 : mv = (loadStep st expired fetched).2.1
          ++ [newMovieOf g (loadStep st expired fetched).2.1.length] :=
        (Option.some_injective _ hmv).symm
      subst hmv2
      apply goodCorpus_append
      exact loadStep_good st expired fetched hst hf _
        (loadStep_cache_eq st expired fetched)

theorem foldl_applyOp_good :
    ∀ (ops : List EngineOp) (st : EngineState),
      (∀ op ∈ ops, GoodFetch (opFetched op)) →
      (∀ mv, st.moviesCache = some mv → GoodCorpus mv) →
      ∀ mv, (ops.foldl applyOp st).moviesCache = some mv → GoodCorpus mv
  | [], _, _, hst => hst
  | op :: ops, st, h, hst => by
    rw [List.foldl_cons]
    exact foldl_applyOp_good ops (applyOp st op)
      (fun o ho => h o (List.mem_cons_of_mem _ ho))
      (applyOp_good st op hst (h op (List.mem_cons_self _ _)))

/-- C10 (amended).  Whenever every load performed in a run delivers items
    whose normalized ids (`movie_id || index + 1`) are pairwise distinct and
    at most the number of delivered items — which holds in particular when
    the provider supplies no ids, so they are numbered 1..n, and for the
    bundled sample data's sequential ids — every corpus reachable through the
    cache operations (initial load, TTL reload, and the append after a failed
    title lookup, which assigns id `length + 1`) has pairwise-distinct ids.
    Without that restriction the invariant fails already at load (see the
    counterexample). -/
theorem claim10_unique_ids_amended (ops : List EngineOp)
    (h : ∀ op ∈ ops, GoodFetch (opFetched op))
    (mv : List Movie) (hmv : (runOps ops).moviesCache = some mv) :
    (mv.map Movie.movie_id).Nodup :=
  (foldl_applyOp_good ops initState h
    (fun _ hc => absurd hc (by simp [initState])) mv hmv).1

/-- Provider items without ids, for the C10 witness. -/
def gTen1 : GrokMovieIn := ⟨none, "aaaa".toList, [], [], [], 0, []⟩

/-- Second provider item without id, for the C10 witness. -/
def gTen2 : GrokMovieIn := ⟨none, "bbbb".toList, [], [], [], 0, []⟩

/-- Witness for the amended C10: a run consisting of one load of two id-less
    items yields a corpus with distinct ids. -/
theorem claim10_unique_ids_amended_witness :
    ((normalizeLoaded [gTen1, gTen2]).map Movie.movie_id).Nodup :=
  claim10_unique_ids_amended [EngineOp.load true [gTen1, gTen2]]
    (by
      intro op hop
      simp only [List.mem_singleton] at hop
      subst hop
      exact ⟨by decide, by decide⟩)
    (normalizeLoaded [gTen1, gTen2]) rfl
